import Mathlib

/-!
Verification of the PIPE background-star synthesis module (`pipe/syntstar.py`
together with the catalog access in `pipe/read.py`).

Modelling conventions:
* Python floats are modelled as real numbers, numpy integer values as `Int`.
* numpy arrays are modelled as index functions or lists; 2D frames are
  functions from pixel indices to reals (`fun j i => ...`, row index first,
  matching `frame[j, i]` in the source).
* Fallible code (exceptions, out-of-bounds indexing) is modelled with
  `Option` / `Except`.
* External collaborators that are not part of the verified sources (the
  `psf_model` class, the `psf.fit` routine, the PSF library and FITS I/O)
  are abstract parameters of the definitions that use them.
-/

open scoped Classical

/-- Python `int()` applied to a float truncates toward zero. -/
noncomputable def pyIntR (x : ℝ) : ℤ := if 0 ≤ x then ⌊x⌋ else ⌈x⌉

/-- numpy `deg2rad`: degrees to radians. -/
noncomputable def deg2rad (d : ℝ) : ℝ := d * (Real.pi / 180)

/-- `rotate_position` from syntstar.py: rotate coordinates by the roll
angle given in degrees (detector sign convention). -/
noncomputable def rotate_position (x y rolldeg : ℝ) : ℝ × ℝ :=
  let rollrad := deg2rad rolldeg
  let cosa := Real.cos rollrad
  let sina := Real.sin rollrad
  (x * cosa + y * sina, -x * sina + y * cosa)

/-- `derotate_position` from syntstar.py: de-rotate coordinates, defined as
rotation by the negated roll angle. -/
noncomputable def derotate_position (xroll yroll rolldegs : ℝ) : ℝ × ℝ :=
  rotate_position xroll yroll (-rolldegs)

/-- `find_inds` from syntstar.py.  Computes `(i0, i1, j0, j1)` such that the
global axis slice `[i0:i1)` corresponds to the slice `[j0:j1)` of a local
window of length `2*radius+1` centred at `x`; `(0,0,0,0)` is the no-overlap
answer of the first guard. -/
def find_inds (x_len x radius : ℤ) : ℤ × ℤ × ℤ × ℤ :=
  if x < -radius ∨ x > x_len + radius then (0, 0, 0, 0)
  else
    let p1 := if x > radius then (x - radius, (0 : ℤ)) else ((0 : ℤ), radius - x)
    let p2 := if x + radius < x_len then (x + radius + 1, 2 * radius + 1)
              else (x_len, radius - x + x_len)
    (p1.1, p2.1, p1.2, p2.2)

/-- `find_area_inds` from syntstar.py: border indices in `shape` for a circle
of `radius` at floating point pixel coordinates `(x, y)`; `none` models the
early `return None` when an axis has no overlap.  `shape` is `(ny, nx)`. -/
noncomputable def find_area_inds (x y : ℝ) (shape : ℕ × ℕ) (radius : ℤ) :
    Option (ℤ × ℤ × ℤ × ℤ) :=
  let i := pyIntR x
  let i0 := i - radius
  if (shape.2 : ℤ) ≤ i0 then none
  else
    let i1 := i + radius
    if i1 ≤ 0 then none
    else
      let i0c := max i0 0
      let i1c := min i1 (shape.2 : ℤ)
      let j := pyIntR y
      let j0 := j - radius
      if (shape.1 : ℤ) ≤ j0 then none
      else
        let j1 := j + radius
        if j1 ≤ 0 then none
        else some (i0c, i1c, max j0 0, min j1 (shape.1 : ℤ))

/-- `psf_radii` from syntstar.py (scalar case): clamp the affine expression
to [25, 100] and take the ceiling, returned as an integer radius. -/
noncomputable def psf_radii (f : ℝ) : ℤ :=
  ⌈min (max (25 + 75 * (f - 1e-4) / (1e-1 - 1e-4)) 25) 100⌉

/-- The adaptive radius as the specification words it:
`clamp(ceil(25 + 75*(f - 1e-4)/(1e-1 - 1e-4)), 25, 100)`. -/
noncomputable def psf_radii_spec (f : ℝ) : ℤ :=
  max 25 (min ⌈(25 + 75 * (f - 1e-4) / (1e-1 - 1e-4) : ℝ)⌉ 100)

/-- numpy `linspace(a, b, num)` sample `k` (for `num = 1` numpy returns the
single value `a`, which the `num - 1 = 0` division-by-zero convention of
`ℝ` reproduces). -/
noncomputable def linspace (a b : ℝ) (num : ℕ) (k : ℕ) : ℝ :=
  a + k * (b - a) / ((num : ℝ) - 1)

/-- The per-star blur resolution estimate `num_res` from
`star_bg.image_cat`: `0.5 * deg2rad(blurdeg) * r / resolution` with `r` the
radial distance of the (rotated) star position from the target. -/
noncomputable def image_cat_num_res (blurdeg resolution x y : ℝ) : ℝ :=
  0.5 * deg2rad blurdeg * Real.sqrt (x ^ 2 + y ^ 2) / resolution

/-- The per-star blur sample count `N = 2*int(num_res)+1` from
`star_bg.image_cat`. -/
noncomputable def image_cat_N (blurdeg resolution x y : ℝ) : ℤ :=
  2 * pyIntR (image_cat_num_res blurdeg resolution x y) + 1

/-- The per-star blur offset lists `(dxs, dys)` built by the loop body of
`star_bg.image_cat`: for `N > 2`, rotate the rotated position `(x, y)` by
the `N` evenly spaced sub-angles `0.5*blurdeg*linspace(-1, 1, N)` and record
the differences; otherwise a single zero offset. -/
noncomputable def image_cat_offsets (blurdeg resolution x y : ℝ) :
    List ℝ × List ℝ :=
  let N := image_cat_N blurdeg resolution x y
  if 2 < N then
    ((List.range N.toNat).map fun k =>
        (rotate_position x y (0.5 * blurdeg * linspace (-1) 1 N.toNat k)).1 - x,
     (List.range N.toNat).map fun k =>
        (rotate_position x y (0.5 * blurdeg * linspace (-1) 1 N.toNat k)).2 - y)
  else ([0], [0])

/-- Abstract point-spread function: the external `psf_model` capability,
called with `(x, y, grid, circular)`; the value is the intensity at one
sample point. -/
abbrev PsfFun : Type := ℝ → ℝ → Bool → Bool → ℝ

/-- `MultiPSF.__call__` from syntstar.py, evaluated at a single sample
point: start from the term for offset 0, accumulate the terms for offsets
`1..N-1` and divide by `N = len(dxs)`.  `none` models the `IndexError`
raised when `dxs` is empty or `dys` is shorter than `dxs`. -/
noncomputable def MultiPSF_call (P : PsfFun) (dxs dys : List ℝ) (x y : ℝ)
    (grid circular : Bool) : Option ℝ :=
  match dxs.head?, dys.head? with
  | some d0, some e0 =>
      if dxs.length ≤ dys.length then
        some (((List.range (dxs.length - 1)).foldl
            (fun ret n =>
              ret + P (x - dxs.getD (n + 1) 0) (y - dys.getD (n + 1) 0) grid circular)
            (P (x - d0) (y - e0) grid circular)) / dxs.length)
      else none
  | _, _ => none

/-- A detector frame: row index first, `frame j i` models `frame[j, i]`. -/
abbrev Frame : Type := ℕ → ℕ → ℝ

/-- `psf_image` from syntstar.py: the blurred PSF footprint over the
`(2*radius+1)`-point square grid `v = linspace(-radius, radius)`, evaluated
through `MultiPSF` with `circular=True` (grid evaluation: entry `[j, i]`
pairs `x`-sample `i` with `y`-sample `j`).  In-repo callers always supply
equal-length nonempty offset lists, so the `getD 0` default of the
`MultiPSF` option is never taken. -/
noncomputable def psf_image (x0f y0f : ℝ) (dxs dys : List ℝ) (P : PsfFun)
    (radius : ℝ) : ℤ → ℤ → ℝ :=
  let M := (pyIntR (2 * radius + 1)).toNat
  fun j i =>
    (MultiPSF_call P dxs dys (linspace (-radius) radius M i.toNat - x0f)
      (linspace (-radius) radius M j.toNat - y0f) true true).getD 0

/-- `psf_fit_image` from syntstar.py: weighted sum of shifted blurred-PSF
evaluations with `circular=False`, cut by the disc `xx^2 + yy^2 <= radius^2`
of the `mgrid` coordinates.  The source loop starts from the term for
coefficient 0 and raises an `IndexError` on an empty coefficient list; the
fold below agrees with it on the nonempty lists all in-repo callers pass. -/
noncomputable def psf_fit_image (kf kxl kyl : List ℝ) (dxs dys : List ℝ)
    (P : PsfFun) (radius : ℝ) : ℤ → ℤ → ℝ :=
  let M := (pyIntR (2 * radius + 1)).toNat
  fun j i =>
    let ret := (List.range kf.length).foldl
      (fun acc n => acc + kf.getD n 0 *
        (MultiPSF_call P dxs dys
          (linspace (-radius) radius M i.toNat - kxl.getD n 0)
          (linspace (-radius) radius M j.toNat - kyl.getD n 0) true false).getD 0)
      0
    if ((j : ℝ) - radius) ^ 2 + ((i : ℝ) - radius) ^ 2 ≤ radius ^ 2 then ret else 0

/-- `add_star` from syntstar.py: place `flux` times the star footprint
(plain `psf_image`, or `psf_fit_image` when fitted kernel data `kmat =
(kf, kx, ky)` is given) into the frame through the `find_inds` windows. -/
noncomputable def add_star (shape : ℕ × ℕ) (frame : Frame) (flux : ℝ)
    (x0 y0 : ℝ) (dxs dys : List ℝ) (P : PsfFun)
    (kmat : Option (List ℝ × List ℝ × List ℝ)) (radius : ℤ) : Frame :=
  let x0i := pyIntR x0
  let y0i := pyIntR y0
  let x0f := x0 - x0i
  let y0f := y0 - y0i
  let xq := find_inds shape.2 x0i radius
  let yq := find_inds shape.1 y0i radius
  let star_frame : ℤ → ℤ → ℝ :=
    match kmat with
    | none => psf_image x0f y0f dxs dys P (radius : ℝ)
    | some (kf, kx, ky) =>
        psf_fit_image kf (kx.map fun t => x0f + t) (ky.map fun t => y0f + t)
          dxs dys P (radius : ℝ)
  fun j i =>
    frame j i +
      if xq.1 ≤ (i : ℤ) ∧ (i : ℤ) < xq.2.1 ∧ yq.1 ≤ (j : ℤ) ∧ (j : ℤ) < yq.2.1 then
        flux * star_frame (yq.2.2.1 + ((j : ℤ) - yq.1)) (xq.2.2.1 + ((i : ℤ) - xq.1))
      else 0

/-- The per-pixel coverage condition of `add_circle` from syntstar.py:
pixel `(j, i)` lies in the clipped `find_inds` windows for window radius
`im_rad = int(radius + 1)` and the corresponding local meshgrid point
satisfies `X^2 + Y^2 <= radius^2`. -/
noncomputable def circle_covers (shape : ℕ × ℕ) (x0 y0 radius : ℝ)
    (j i : ℕ) : Prop :=
  let im_rad := pyIntR (radius + 1)
  let x0i := pyIntR x0
  let y0i := pyIntR y0
  let x0f := x0 - x0i
  let y0f := y0 - y0i
  let xq := find_inds shape.2 x0i im_rad
  let yq := find_inds shape.1 y0i im_rad
  (xq.1 ≤ (i : ℤ) ∧ (i : ℤ) < xq.2.1 ∧ yq.1 ≤ (j : ℤ) ∧ (j : ℤ) < yq.2.1) ∧
    ((-(im_rad : ℝ) + ((xq.2.2.1 + ((i : ℤ) - xq.1) : ℤ) : ℝ) - x0f) ^ 2 +
     (-(im_rad : ℝ) + ((yq.2.2.1 + ((j : ℤ) - yq.1) : ℤ) : ℝ) - y0f) ^ 2
       ≤ radius ^ 2)

/-- `add_circle` from syntstar.py: add the boolean disc stencil (True = 1.0)
into the frame. -/
noncomputable def add_circle (shape : ℕ × ℕ) (frame : Frame) (x0 y0 : ℝ)
    (radius : ℝ) : Frame :=
  fun j i => frame j i + if circle_covers shape x0 y0 radius j i then 1 else 0

/-- numpy `max` of the `M × M` local star footprint (its own peak); `np.max`
of a nonempty finite array equals the supremum of its values. -/
noncomputable def frame_peak (f : ℤ → ℤ → ℝ) (M : ℕ) : ℝ :=
  sSup {r : ℝ | ∃ a < M, ∃ b < M, f (a : ℤ) (b : ℤ) = r}

/-- `WorkCat` from syntstar.py: processed per-frame catalog data (parallel
arrays indexed by star entry; `coeff` is `None` until a star is refined). -/
structure WorkCat where
  catsize : ℕ
  x : ℕ → ℝ
  y : ℕ → ℝ
  fscale : ℕ → ℝ
  dxs : ℕ → List ℝ
  dys : ℕ → List ℝ
  coeff : ℕ → Option (List ℝ)

/-- The per-pixel coverage condition of `add_psf_mask` from syntstar.py:
pixel `(j, i)` lies in the clipped `find_inds` windows (window radius
`int(radius)`) and the local star footprint there exceeds `level` times the
footprint's own peak `np.max(star_frame)`. -/
noncomputable def psf_covers (shape : ℕ × ℕ) (x0 y0 : ℝ) (dxs dys : List ℝ)
    (P : PsfFun) (kmat : Option (List ℝ × List ℝ × List ℝ))
    (radius level : ℝ) (j i : ℕ) : Prop :=
  let x0i := pyIntR x0
  let y0i := pyIntR y0
  let x0f := x0 - x0i
  let y0f := y0 - y0i
  let xq := find_inds shape.2 x0i (pyIntR radius)
  let yq := find_inds shape.1 y0i (pyIntR radius)
  let star_frame : ℤ → ℤ → ℝ :=
    match kmat with
    | none => psf_image x0f y0f dxs dys P radius
    | some (kf, kx, ky) =>
        psf_fit_image kf (kx.map fun t => x0f + t) (ky.map fun t => y0f + t)
          dxs dys P radius
  (xq.1 ≤ (i : ℤ) ∧ (i : ℤ) < xq.2.1 ∧ yq.1 ≤ (j : ℤ) ∧ (j : ℤ) < yq.2.1) ∧
    level * frame_peak star_frame (pyIntR (2 * radius + 1)).toNat <
      star_frame (yq.2.2.1 + ((j : ℤ) - yq.1)) (xq.2.2.1 + ((i : ℤ) - xq.1))

/-- `add_psf_mask` from syntstar.py: add the thresholded boolean footprint
(True = 1.0) into the frame. -/
noncomputable def add_psf_mask (shape : ℕ × ℕ) (frame : Frame) (x0 y0 : ℝ)
    (dxs dys : List ℝ) (P : PsfFun)
    (kmat : Option (List ℝ × List ℝ × List ℝ)) (radius level : ℝ) : Frame :=
  fun j i =>
    frame j i + if psf_covers shape x0 y0 dxs dys P kmat radius level j i then 1 else 0

/-- The accumulated circle frame of `make_bg_circ_mask` from syntstar.py. -/
noncomputable def bg_circ_frame (shape : ℕ × ℕ) (cat : WorkCat)
    (skip : List ℕ) (radius : ℝ) : Frame :=
  (List.range cat.catsize).foldl
    (fun acc n =>
      if n ∈ skip then acc else add_circle shape acc (cat.x n) (cat.y n) radius)
    (fun _ _ => 0)

/-- `make_bg_circ_mask` from syntstar.py: the boolean mask `frame == 0`. -/
noncomputable def make_bg_circ_mask (shape : ℕ × ℕ) (cat : WorkCat)
    (skip : List ℕ) (radius : ℝ) : ℕ → ℕ → Prop :=
  fun j i => bg_circ_frame shape cat skip radius j i = 0

/-- The fitted-kernel argument selection of `make_bg_psf_mask` (and of
`make_bg_frame`): `(coeff, kx, ky)` when `kx` is given and the star has
fitted coefficients, else nothing.  In the source `kx` and `ky` are two
separate optional arguments that callers pass together. -/
def select_kmat (kxo kyo : Option (List ℝ)) (coeff : Option (List ℝ)) :
    Option (List ℝ × List ℝ × List ℝ) :=
  match kxo, coeff with
  | some kxl, some c => some (c, kxl, kyo.getD [])
  | _, _ => none

/-- The accumulated thresholded-footprint frame of `make_bg_psf_mask`. -/
noncomputable def bg_psf_frame (shape : ℕ × ℕ) (cat : WorkCat)
    (psf_ids : ℕ → ℕ) (psfs : ℕ → PsfFun) (skip : List ℕ)
    (kxo kyo : Option (List ℝ)) (radius level : ℝ) : Frame :=
  (List.range cat.catsize).foldl
    (fun acc n =>
      if n ∈ skip then acc
      else
        add_psf_mask shape acc (cat.x n) (cat.y n) (cat.dxs n) (cat.dys n)
          (psfs (psf_ids n)) (select_kmat kxo kyo (cat.coeff n)) radius level)
    (fun _ _ => 0)

/-- `make_bg_psf_mask` from syntstar.py: the boolean mask `frame == 0`. -/
noncomputable def make_bg_psf_mask (shape : ℕ × ℕ) (cat : WorkCat)
    (psf_ids : ℕ → ℕ) (psfs : ℕ → PsfFun) (skip : List ℕ)
    (kxo kyo : Option (List ℝ)) (radius level : ℝ) : ℕ → ℕ → Prop :=
  fun j i => bg_psf_frame shape cat psf_ids psfs skip kxo kyo radius level j i = 0

/-- The catalog state of a `star_bg` instance needed by `star_bg.image`:
parallel position/flux arrays, the PSF assignment table, and the assigned
PSF models.  The external `psf_model` instances are abstracted as the
two-argument functions they are called as in `star_bg.image` (default
`grid`/`circular` flags folded in). -/
structure StarBg where
  catsize : ℕ
  xpos : ℕ → ℝ
  ypos : ℕ → ℝ
  fscale : ℕ → ℝ
  psf_ids : ℕ → ℕ
  psfs : ℕ → ℝ → ℝ → ℝ

/-- The contribution a single star deposits in `star_bg.image`: the clipped
`find_area_inds` window, the circular `psf_rad` cutoff applied to the
meshgrid of `ddx, ddy`, and the `fscale`-scaled PSF evaluation. -/
noncomputable def star_contrib (sb : StarBg) (x0 y0 rolldeg : ℝ)
    (shape : ℕ × ℕ) (n : ℕ) : Frame :=
  let dxn := (rotate_position (sb.xpos n) (sb.ypos n) rolldeg).1
  let dyn := (rotate_position (sb.xpos n) (sb.ypos n) rolldeg).2
  let psf_rad := psf_radii (sb.fscale n)
  match find_area_inds (x0 + dxn) (y0 + dyn) shape psf_rad with
  | none => fun _ _ => 0
  | some (i0, i1, j0, j1) =>
      fun j i =>
        if i0 ≤ (i : ℤ) ∧ (i : ℤ) < i1 ∧ j0 ≤ (j : ℤ) ∧ (j : ℤ) < j1 then
          let ddx := ((i : ℝ) - x0) - dxn
          let ddy := ((j : ℝ) - y0) - dyn
          if (psf_rad : ℝ) ^ 2 < ddx ^ 2 + ddy ^ 2 then 0
          else sb.fscale n * sb.psfs (sb.psf_ids n) ddx ddy
        else 0

/-- `star_bg.image` from syntstar.py: loop over the selected entry range,
skip entries in `skip` and entries with `fscale < limflux`, and accumulate
each remaining star's windowed, circularly cut, flux-scaled footprint. -/
noncomputable def star_bg_image (sb : StarBg) (x0 y0 rolldeg : ℝ)
    (shape : ℕ × ℕ) (skip : List ℕ) (limflux : ℝ)
    (single_id : Option ℕ) : Frame :=
  let id_range := match single_id with
    | none => List.range sb.catsize
    | some k => [k]
  id_range.foldl
    (fun acc n =>
      if n ∈ skip then acc
      else if sb.fscale n < limflux then acc
      else acc + star_contrib sb x0 y0 rolldeg shape n)
    (fun _ _ => 0)

/-- The row-major flattening of the boolean kernel mask `selk` of
`refine_bg_model`: the meshgrid pairs `(j, i)` over
`linspace(-krn_rad, krn_rad, 2*krn_rad+1)` whose integer coordinates
satisfy `xkmat^2 + ykmat^2 <= krn_rad^2`. -/
def kern_sel_pairs (r : ℕ) : List (ℕ × ℕ) :=
  (List.range (2 * r + 1)).flatMap fun j =>
    ((List.range (2 * r + 1)).filter fun i : ℕ =>
        decide (((i : ℤ) - (r : ℤ)) ^ 2 + ((j : ℤ) - (r : ℤ)) ^ 2 ≤ (r : ℤ) ^ 2)).map
      fun i => (j, i)

/-- The kernel x-offsets `kx = krn_scl * xkmat[selk]` of `refine_bg_model`. -/
noncomputable def kern_kx (krn_scl : ℝ) (r : ℕ) : List ℝ :=
  (kern_sel_pairs r).map fun p => krn_scl * ((p.2 : ℝ) - r)

/-- The kernel y-offsets `ky = krn_scl * ykmat[selk]` of `refine_bg_model`. -/
noncomputable def kern_ky (krn_scl : ℝ) (r : ℕ) : List ℝ :=
  (kern_sel_pairs r).map fun p => krn_scl * ((p.1 : ℝ) - r)

/-- `np.sum(kmat)`: the total sum of the fitted `(2*r+1) x (2*r+1)` kernel
matrix. -/
noncomputable def kmat_sum (r : ℕ) (m : ℕ → ℕ → ℝ) : ℝ :=
  ∑ j in Finset.range (2 * r + 1), ∑ i in Finset.range (2 * r + 1), m j i

/-- `make_single_star_frame` from syntstar.py: render one star of the
working catalog into a fresh zero frame via `add_star`, with kernel data
when `kx` is given and the star has fitted coefficients. -/
noncomputable def make_single_star_frame (shape : ℕ × ℕ) (cat : WorkCat)
    (P : PsfFun) (star_id : ℕ) (kxo kyo : Option (List ℝ)) : Frame :=
  add_star shape (fun _ _ => 0) (cat.fscale star_id) (cat.x star_id)
    (cat.y star_id) (cat.dxs star_id) (cat.dys star_id) P
    (select_kmat kxo kyo (cat.coeff star_id)) (psf_radii (cat.fscale star_id))

/-- The argument record of one external `psf.fit` call (§6 fitting-routine
interface): basis functions are `MultiPSF` values, represented by the
wrapped PSF model together with its borrowed offset lists. -/
structure FitArgs where
  basis : List (PsfFun × List ℝ × List ℝ)
  frame : Frame
  noise : Frame
  mask : ℕ → ℕ → Bool
  xc : ℝ
  yc : ℝ
  fitrad : ℤ
  defrad : ℤ
  krn_scl : ℝ
  krn_rad : ℕ
  bg_fit : ℤ

/-- The result quintuple of a successful external `psf.fit` call:
`(fitstar_img, bg, kmat, sc, w)`. -/
structure FitResult where
  img : Frame
  bg : ℝ
  kmat : ℕ → ℕ → ℝ
  sc : ℝ
  w : ℝ

/-- The fixed context of one `refine_bg_model` call: frame shape, the
external fitting routine (`none` models a raised exception), observed data,
noise, mask, the reference PSF norm, and the PSF assignment tables. -/
structure RefCtx where
  shape : ℕ × ℕ
  fit : FitArgs → Option FitResult
  data : Frame
  noise : Frame
  mask : ℕ → ℕ → Bool
  psf_norm : ℝ
  psf_ids : ℕ → ℕ
  psfs : ℕ → PsfFun
  krn_scl : ℝ
  krn_rad : ℕ

/-- The mutable state threaded through the `refine_bg_model` loop: the
shared model buffer and the working catalog. -/
structure RefState where
  model : Frame
  cat : WorkCat

/-- The model buffer right after step 1 of a `refine_bg_model` iteration:
the current model minus `psf_norm` times the star's rendered current
contribution. -/
noncomputable def refine_sub_model (ctx : RefCtx) (st : RefState)
    (star_id : ℕ) : Frame :=
  fun j i =>
    st.model j i - ctx.psf_norm *
      make_single_star_frame ctx.shape st.cat (ctx.psfs (ctx.psf_ids star_id))
        star_id (some (kern_kx ctx.krn_scl ctx.krn_rad))
        (some (kern_ky ctx.krn_scl ctx.krn_rad)) j i

/-- The arguments `refine_bg_model` passes to the external `psf_fit` call
for one star: the star's `MultiPSF` as single basis function, the residual
`data - model`, the distance-dependent fit radius, default radius
`psf_rad`, and background fitting disabled (`bg_fit = -1`). -/
noncomputable def refine_fit_args (ctx : RefCtx) (st : RefState)
    (star_id : ℕ) : FitArgs :=
  let model1 := refine_sub_model ctx st star_id
  let psf_rad := psf_radii (st.cat.fscale star_id)
  let dist := Real.sqrt ((st.cat.x star_id - 0.5 * ctx.shape.2) ^ 2 +
    (st.cat.y star_id - 0.5 * ctx.shape.1) ^ 2)
  let fitrad := if 0.5 * min (ctx.shape.1 : ℝ) (ctx.shape.2 : ℝ) < dist
    then psf_rad else 25
  { basis := [(ctx.psfs (ctx.psf_ids star_id), st.cat.dxs star_id,
      st.cat.dys star_id)],
    frame := fun j i => ctx.data j i - model1 j i,
    noise := ctx.noise, mask := ctx.mask,
    xc := st.cat.x star_id, yc := st.cat.y star_id,
    fitrad := fitrad, defrad := psf_rad,
    krn_scl := ctx.krn_scl, krn_rad := ctx.krn_rad, bg_fit := -1 }

/-- One iteration of the `refine_bg_model` loop: subtract the star's
current contribution, call the external fit on the residual, and on
success add the fitted reconstruction back and update the star's
`fscale` and `coeff` entries.  A failed fit leaves the loop with the
subtracted model (`Except.error`), modelling the propagated exception. -/
noncomputable def refine_step (ctx : RefCtx) (st : RefState) (star_id : ℕ) :
    Except Frame RefState :=
  let model1 := refine_sub_model ctx st star_id
  match ctx.fit (refine_fit_args ctx st star_id) with
  | none => .error model1
  | some r =>
      let knorm := kmat_sum ctx.krn_rad r.kmat
      .ok { model := fun j i => model1 j i + r.img j i,
            cat := { st.cat with
              fscale := Function.update st.cat.fscale star_id
                (st.cat.fscale star_id *
                  (knorm / (ctx.psf_norm * st.cat.fscale star_id))),
              coeff := Function.update st.cat.coeff star_id
                (some ((kern_sel_pairs ctx.krn_rad).map
                  fun p => r.kmat p.1 p.2 / knorm)) } }

/-- `refine_bg_model` from syntstar.py: iterate `refine_step` over the
ordered star list; a raised fit exception propagates, carrying the model
buffer state at the moment of the raise. -/
noncomputable def refine_bg_model (ctx : RefCtx) :
    List ℕ → RefState → Except Frame RefState
  | [], st => .ok st
  | star_id :: rest, st =>
      match refine_step ctx st star_id with
      | .error m => .error m
      | .ok st1 => refine_bg_model ctx rest st1

/-- The catalog table behind `hdul[1]` in `star_bg.read_starcat`:
column-name list plus the column contents, abstracting the FITS container
(an external collaborator). -/
structure StarcatData where
  nrows : ℕ
  colnames : List String
  mag_cheops : ℕ → ℝ
  mag_gaia : ℕ → ℝ
  ra : ℕ → ℝ
  dec : ℕ → ℝ
  teff : ℕ → ℝ
  gid : ℕ → ℕ
  distance : ℕ → ℝ

/-- The row cutoff `N` of `star_bg.read_starcat`: all rows, or
`np.searchsorted(distance, maxrad)`, which on the distance-sorted catalog
column equals the number of rows with distance below `maxrad`. -/
noncomputable def starcat_N (cat : StarcatData) (maxrad : Option ℝ) : ℕ :=
  match maxrad with
  | none => cat.nrows
  | some m => ((List.range cat.nrows).filter fun i => decide (cat.distance i < m)).length

/-- `star_bg.read_starcat` from syntstar.py: select the magnitude column
(`MAG_CHEOPS`, else `MAG_GAIA`, else raise), convert magnitudes to relative
flux scales `10^(-0.4*dmag)` against the first (target) row, project sky
offsets to pixels, and keep only entries with `fscale > fscalemin`.
Returns `(dx, dy, fscale, Teff, id)` restricted to the surviving entries. -/
noncomputable def read_starcat (pxl_scl : ℝ) (cat : StarcatData)
    (maxrad : Option ℝ) (fscalemin : ℝ) :
    Except String (List ℝ × List ℝ × List ℝ × List ℝ × List ℕ) :=
  let N := starcat_N cat maxrad
  let magOpt : Option (ℕ → ℝ) :=
    if "MAG_CHEOPS" ∈ cat.colnames then some cat.mag_cheops
    else if "MAG_GAIA" ∈ cat.colnames then some cat.mag_gaia
    else none
  match magOpt with
  | none => .error "[read_starcat] Error: magnitude column not defined"
  | some mag =>
      let fscale : ℕ → ℝ := fun i => (10 : ℝ) ^ (-(0.4) * (mag i - mag 0))
      let dx : ℕ → ℝ := fun i =>
        (cat.ra 0 - cat.ra i) * Real.cos (deg2rad (cat.dec 0)) * 3600.0 / pxl_scl
      let dy : ℕ → ℝ := fun i => (cat.dec i - cat.dec 0) * 3600.0 / pxl_scl
      let sel := (List.range N).filter fun i => decide (fscale i > fscalemin)
      .ok (sel.map dx, sel.map dy, sel.map fscale, sel.map cat.teff, sel.map cat.gid)

/-! ### Concrete data used by witnesses -/

/-- A one-star working catalog with unit flux scale and zero offsets. -/
noncomputable def wcatW : WorkCat :=
  ⟨1, fun _ => 0, fun _ => 0, fun _ => 1, fun _ => [0], fun _ => [0], fun _ => none⟩

/-- A concrete fit result whose kernel matrix is constantly 1. -/
noncomputable def fitresW : FitResult :=
  ⟨fun _ _ => 0, 0, fun _ _ => 1, 0, 0⟩

/-- A refinement context whose external fit always succeeds with `fitresW`. -/
noncomputable def ctxOkW : RefCtx :=
  ⟨(1, 1), fun _ => some fitresW, fun _ _ => 0, fun _ _ => 0, fun _ _ => true, 1,
   fun _ => 0, fun _ _ _ _ _ => 0, 3 / 10, 3⟩

/-- A refinement context whose external fit always raises. -/
noncomputable def ctxFailW : RefCtx :=
  ⟨(1, 1), fun _ => none, fun _ _ => 0, fun _ _ => 0, fun _ _ => true, 1,
   fun _ => 0, fun _ _ _ _ _ => 0, 3 / 10, 3⟩

/-- A refinement start state: zero model over `wcatW`. -/
noncomputable def stW : RefState := ⟨fun _ _ => 0, wcatW⟩

/-- A catalog table with no recognized magnitude column. -/
noncomputable def tblNoMagW : StarcatData :=
  ⟨1, ["RA", "DEC"], fun _ => 0, fun _ => 0, fun _ => 0, fun _ => 0, fun _ => 0,
   fun _ => 0, fun _ => 0⟩

/-- A catalog table carrying the `MAG_CHEOPS` column. -/
noncomputable def tblCheopsW : StarcatData :=
  ⟨1, ["RA", "DEC", "MAG_CHEOPS"], fun _ => 5, fun _ => 0, fun _ => 0, fun _ => 0,
   fun _ => 0, fun _ => 0, fun _ => 0⟩

/-- The three-star flux-scale table `[1.0, 0.05, 1e-6]` of the rendering
example. -/
noncomputable def fscale3W : ℕ → ℝ :=
  fun n => if n = 0 then 1 else if n = 1 then 0.05 else 1e-6

/-! ## Helper lemmas -/

theorem pipe_list_range_map_sum {M : Type} [AddCommMonoid M] (f : ℕ → M) (m : ℕ) :
    ((List.range m).map f).sum = ∑ n in Finset.range m, f n := by
  induction m with
  | zero => simp
  | succ k ih =>
      rw [List.range_succ, List.map_append, List.sum_append, Finset.sum_range_succ, ih]
      simp

theorem pipe_foldl_add_sum {M : Type} [AddCommMonoid M] (g : ℕ → M) :
    ∀ (l : List ℕ) (b : M), l.foldl (fun a n => a + g n) b = b + (l.map g).sum := by
  intro l
  induction l with
  | nil => intro b; simp
  | cons h t ih => intro b; simp only [List.foldl_cons, List.map_cons, List.sum_cons, ih, add_assoc]

/-! ## Claim theorems -/

/-- Claim C7: for all coordinates (x, y) and every roll angle in degrees,
de-rotating the rotated position recovers (x, y) exactly in real
arithmetic, where derotation is rotation by the negated angle. -/
theorem rotate_derotate_inverse (x y rolldeg : ℝ) :
    derotate_position (rotate_position x y rolldeg).1
      (rotate_position x y rolldeg).2 rolldeg = (x, y) := by
  have h := Real.sin_sq_add_cos_sq (deg2rad rolldeg)
  have hneg : deg2rad (-rolldeg) = -(deg2rad rolldeg) := by
    unfold deg2rad; ring
  simp only [derotate_position, rotate_position, hneg, Real.cos_neg, Real.sin_neg]
  refine Prod.ext ?_ ?_
  · simp only []
    linear_combination x * h
  · simp only []
    linear_combination y * h

/-- Claim C6: the adaptive radius equals
`clamp(ceil(25 + 75*(f - 1e-4)/(1e-1 - 1e-4)), 25, 100)`, always lies in
[25, 100], and is monotone non-decreasing in the flux scale. -/
theorem psf_radii_clamp_monotone (f g : ℝ) (h : f ≤ g) :
    psf_radii f = psf_radii_spec f ∧ 25 ≤ psf_radii f ∧ psf_radii f ≤ 100 ∧
      psf_radii f ≤ psf_radii g := by
  have hceil25 : ⌈(25 : ℝ)⌉ = 25 := by norm_num
  have hceil100 : ⌈(100 : ℝ)⌉ = 100 := by norm_num
  have heq : ∀ u : ℝ, psf_radii u = psf_radii_spec u := by
    intro u
    unfold psf_radii psf_radii_spec
    set t := 25 + 75 * (u - 1e-4) / (1e-1 - 1e-4) with ht
    rcases le_total t 25 with h1 | h1
    · rw [max_eq_right h1, min_eq_left (by norm_num : (25 : ℝ) ≤ 100)]
      have hc : ⌈t⌉ ≤ 25 := hceil25 ▸ Int.ceil_mono h1
      rw [min_eq_left (le_trans hc (by norm_num)), max_eq_left hc, hceil25]
    · rcases le_total t 100 with h2 | h2
      · rw [max_eq_left h1, min_eq_left h2]
        have hc1 : (25 : ℤ) ≤ ⌈t⌉ := hceil25 ▸ Int.ceil_mono h1
        have hc2 : ⌈t⌉ ≤ 100 := hceil100 ▸ Int.ceil_mono h2
        rw [min_eq_left hc2, max_eq_right hc1]
      · rw [max_eq_left (le_trans (by norm_num) h2), min_eq_right h2]
        have hc : (100 : ℤ) ≤ ⌈t⌉ := hceil100 ▸ Int.ceil_mono h2
        rw [min_eq_right hc, max_eq_right (by norm_num : (25 : ℤ) ≤ 100), hceil100]
  have hlo : ∀ u : ℝ, 25 ≤ psf_radii u := by
    intro u
    unfold psf_radii
    have h1 : (25 : ℝ) ≤ min (max (25 + 75 * (u - 1e-4) / (1e-1 - 1e-4)) 25) 100 :=
      le_min (le_max_right _ _) (by norm_num)
    exact hceil25 ▸ Int.ceil_mono h1
  have hhi : ∀ u : ℝ, psf_radii u ≤ 100 := by
    intro u
    unfold psf_radii
    exact hceil100 ▸ Int.ceil_mono
      (min_le_right (max (25 + 75 * (u - 1e-4) / (1e-1 - 1e-4)) 25) (100 : ℝ))
  have hmono : psf_radii f ≤ psf_radii g := by
    unfold psf_radii
    apply Int.ceil_mono
    have haff : 25 + 75 * (f - 1e-4) / (1e-1 - 1e-4) ≤
        25 + 75 * (g - 1e-4) / (1e-1 - 1e-4) := by
      gcongr
    exact min_le_min (max_le_max haff le_rfl) le_rfl
  exact ⟨heq f, hlo f, hhi f, hmono⟩

/-- Witness for C6 at the concrete pair `f = 0 <= g = 1`. -/
theorem psf_radii_clamp_monotone_witness :
    (0 : ℝ) ≤ 1 ∧
      (psf_radii 0 = psf_radii_spec 0 ∧ 25 ≤ psf_radii 0 ∧ psf_radii 0 ≤ 100 ∧
        psf_radii 0 ≤ psf_radii 1) :=
  ⟨by norm_num, psf_radii_clamp_monotone 0 1 (by norm_num)⟩

/-- Counterexample for C3: at `axis_len = 5 > 0`, `radius = 3 > 0`,
`x = 8`, the window `[5, 11]` lies entirely outside `[0, 5)` (since
`5 <= 8 - 3`), yet `find_inds` does not return the all-zero tuple: it
returns `(5, 5, 0, 0)`. -/
theorem find_inds_outside_counterexample :
    (0 : ℤ) < 5 ∧ (0 : ℤ) < 3 ∧ (5 : ℤ) ≤ 8 - 3 ∧
      find_inds 5 8 3 = (5, 5, 0, 0) ∧ find_inds 5 8 3 ≠ (0, 0, 0, 0) := by
  decide

/-- Claim C3 (amended): for `axis_len > 0` and `radius > 0`, `find_inds`
returns the all-zero tuple when the window lies entirely outside
`[0, axis_len)` on the left (`x + radius < 0`) or strictly beyond the
right guard (`axis_len + radius < x`); in the remaining entirely-outside
boundary case `axis_len <= x - radius <= axis_len` it returns the
empty-range tuple `(axis_len, axis_len, 0, 0)` instead of all zeros; and
for a window fully inside `[0, axis_len)` the result is
`(x - radius, x + radius + 1, 0, 2*radius + 1)`, so that
`i1 - i0 = j1 - j0 = 2*radius + 1`, `j0 = 0` and `i0 = x - radius`. -/
theorem find_inds_windows (L x r : ℤ) (hL : 0 < L) (hr : 0 < r) :
    (x + r < 0 → find_inds L x r = (0, 0, 0, 0)) ∧
    (L + r < x → find_inds L x r = (0, 0, 0, 0)) ∧
    (L ≤ x - r → x ≤ L + r → find_inds L x r = (L, L, 0, 0)) ∧
    (0 ≤ x - r → x + r < L → find_inds L x r = (x - r, x + r + 1, 0, 2 * r + 1)) := by
  unfold find_inds
  refine ⟨fun h1 => ?_, fun h2 => ?_, fun h3 h4 => ?_, fun h5 h6 => ?_⟩
  · rw [if_pos (Or.inl (by omega))]
  · rw [if_pos (Or.inr (by omega))]
  · rw [if_neg (by omega)]
    simp only []
    rw [if_pos (by omega : x > r), if_neg (by omega : ¬x + r < L)]
    refine Prod.ext (by omega) (Prod.ext rfl (Prod.ext rfl (by simp; omega)))
  · rw [if_neg (by omega)]
    simp only []
    rcases lt_or_le r x with hx | hx
    · rw [if_pos hx, if_pos h6]
    · rw [if_neg (by omega : ¬x > r), if_pos h6]
      refine Prod.ext (by simp; omega) (Prod.ext rfl (Prod.ext (by simp; omega) rfl))

/-- Witness for C3 (amended) at `axis_len = 5`, `x = 2`, `radius = 2`:
the window `[0, 4]` is fully inside `[0, 5)` and the returned tuple is
`(0, 5, 0, 5)`. -/
theorem find_inds_windows_witness :
    (0 : ℤ) < 5 ∧ (0 : ℤ) < 2 ∧ (0 : ℤ) ≤ 2 - 2 ∧ (2 : ℤ) + 2 < 5 ∧
      find_inds 5 2 2 = (2 - 2, 2 + 2 + 1, 0, 2 * 2 + 1) :=
  ⟨by decide, by decide, by decide, by decide,
    (find_inds_windows 5 2 2 (by decide) (by decide)).2.2.2 (by decide) (by decide)⟩

/-- Claim C5: for N >= 1 paired offset samples, `MultiPSF` evaluation at
`(x, y)` is the arithmetic mean over the samples of
`psf_model(x - dx_i, y - dy_i)` with the same grid/circular flags; and a
`MultiPSF` with exactly one zero offset equals direct evaluation of the
wrapped PSF model at every sample point. -/
theorem multiPSF_eval_mean (P : PsfFun) (dxs dys : List ℝ) (x y : ℝ)
    (gr cr : Bool) (hlen : dxs.length = dys.length) (hne : dxs ≠ []) :
    MultiPSF_call P dxs dys x y gr cr =
      some ((((List.range dxs.length).map fun n =>
        P (x - dxs.getD n 0) (y - dys.getD n 0) gr cr).sum) / dxs.length) ∧
    ∀ a b : ℝ, MultiPSF_call P [0] [0] a b gr cr = some (P a b gr cr) := by
  constructor
  · obtain ⟨d0, ds, rfl⟩ := List.exists_cons_of_ne_nil hne
    cases dys with
    | nil => simp at hlen
    | cons e0 es =>
        simp only [MultiPSF_call, List.head?_cons]
        rw [if_pos (le_of_eq hlen)]
        congr 1
        rw [pipe_foldl_add_sum]
        have hlist : (List.range ((d0 :: ds).length)).map
            (fun n => P (x - (d0 :: ds).getD n 0) (y - (e0 :: es).getD n 0) gr cr) =
            P (x - d0) (y - e0) gr cr ::
              (List.range ds.length).map
                (fun n => P (x - ds.getD n 0) (y - es.getD n 0) gr cr) := by
          simp only [List.length_cons, List.range_succ_eq_map, List.map_cons,
            List.map_map]
          refine congrArg₂ _ (by simp) ?_
          refine List.map_congr_left ?_
          intro n _
          simp [Function.comp]
        rw [hlist]
        simp only [List.sum_cons, List.length_cons, Nat.add_sub_cancel]
        have hmap : (List.range ds.length).map
            (fun n => P (x - (d0 :: ds).getD (n + 1) 0)
              (y - (e0 :: es).getD (n + 1) 0) gr cr) =
            (List.range ds.length).map
              (fun n => P (x - ds.getD n 0) (y - es.getD n 0) gr cr) := by
          refine List.map_congr_left ?_
          intro n _
          simp
        rw [hmap]
  · intro a b
    simp [MultiPSF_call]

/-- Witness for C5: two offsets `[1, 2]`/`[3, 4]` with the concrete PSF
`(a, b) => a + b` at `(0, 0)` average to `((-1-3) + (-2-4))/2 = -5`. -/
theorem multiPSF_eval_mean_witness :
    ([(1 : ℝ), 2].length = [(3 : ℝ), 4].length) ∧ [(1 : ℝ), 2] ≠ [] ∧
      MultiPSF_call (fun a b _ _ => a + b) [1, 2] [3, 4] 0 0 true true =
        some (-5) := by
  refine ⟨by simp, by simp, ?_⟩
  have h := (multiPSF_eval_mean (fun a b _ _ => a + b) [1, 2] [3, 4] 0 0 true true
    (by simp) (by simp)).1
  rw [h]
  norm_num [List.range_succ]

/-- Claim C4: for nonnegative blur span and positive resolution, the blur
sample count is `N = 2*floor(num_res) + 1` (odd, at least 1); for `N <= 2`
the offset lists collapse to a single zero offset; for `N > 2` they hold
exactly `N` offsets, the rotation of the rotated position by the `N`
evenly spaced sub-angles `0.5*blurdeg*(-1 + 2k/(N-1))` spanning
`[-blurdeg/2, blurdeg/2]`, minus the un-blurred rotated position. -/
theorem image_cat_blur_samples (blurdeg resolution x y : ℝ)
    (hb : 0 ≤ blurdeg) (hres : 0 < resolution) :
    Odd (image_cat_N blurdeg resolution x y) ∧
    1 ≤ image_cat_N blurdeg resolution x y ∧
    image_cat_N blurdeg resolution x y =
      2 * ⌊image_cat_num_res blurdeg resolution x y⌋ + 1 ∧
    (image_cat_N blurdeg resolution x y ≤ 2 →
      image_cat_offsets blurdeg resolution x y = ([0], [0])) ∧
    (2 < image_cat_N blurdeg resolution x y →
      (image_cat_offsets blurdeg resolution x y).1.length =
          (image_cat_N blurdeg resolution x y).toNat ∧
      (image_cat_offsets blurdeg resolution x y).2.length =
          (image_cat_N blurdeg resolution x y).toNat ∧
      ∀ k < (image_cat_N blurdeg resolution x y).toNat,
        (image_cat_offsets blurdeg resolution x y).1.getD k 0 =
          (rotate_position x y (0.5 * blurdeg *
            (-1 + k * 2 / ((image_cat_N blurdeg resolution x y : ℝ) - 1)))).1 - x ∧
        (image_cat_offsets blurdeg resolution x y).2.getD k 0 =
          (rotate_position x y (0.5 * blurdeg *
            (-1 + k * 2 / ((image_cat_N blurdeg resolution x y : ℝ) - 1)))).2 - y) := by
  have hd : 0 ≤ deg2rad blurdeg := mul_nonneg hb (by positivity)
  have h0 : 0 ≤ image_cat_num_res blurdeg resolution x y := by
    unfold image_cat_num_res
    exact div_nonneg
      (mul_nonneg (mul_nonneg (by norm_num) hd) (Real.sqrt_nonneg _)) hres.le
  have hpy : pyIntR (image_cat_num_res blurdeg resolution x y) =
      ⌊image_cat_num_res blurdeg resolution x y⌋ := by
    unfold pyIntR
    rw [if_pos h0]
  have hNeq : image_cat_N blurdeg resolution x y =
      2 * ⌊image_cat_num_res blurdeg resolution x y⌋ + 1 := by
    unfold image_cat_N
    rw [hpy]
  have hfl : 0 ≤ ⌊image_cat_num_res blurdeg resolution x y⌋ :=
    Int.floor_nonneg.mpr h0
  refine ⟨⟨⌊image_cat_num_res blurdeg resolution x y⌋, by rw [hNeq]⟩,
    by omega, hNeq, ?_, ?_⟩
  · intro hN2
    unfold image_cat_offsets
    rw [if_neg (not_lt.mpr hN2)]
  · intro hN2
    have hcastZ : ((image_cat_N blurdeg resolution x y).toNat : ℤ) =
        image_cat_N blurdeg resolution x y := Int.toNat_of_nonneg (by omega)
    have hcast : (((image_cat_N blurdeg resolution x y).toNat : ℕ) : ℝ) =
        ((image_cat_N blurdeg resolution x y : ℤ) : ℝ) := by
      exact_mod_cast congrArg (fun z : ℤ => (z : ℝ)) hcastZ
    have hlin : ∀ k : ℕ,
        linspace (-1) 1 (image_cat_N blurdeg resolution x y).toNat k =
          -1 + k * 2 / ((image_cat_N blurdeg resolution x y : ℝ) - 1) := by
      intro k
      unfold linspace
      rw [hcast]
      norm_num
    unfold image_cat_offsets
    rw [if_pos hN2]
    refine ⟨by simp, by simp, ?_⟩
    intro k hk
    constructor
    · have hk2 : k < (((List.range (image_cat_N blurdeg resolution x y).toNat).map
          fun k => (rotate_position x y (0.5 * blurdeg *
            linspace (-1) 1 (image_cat_N blurdeg resolution x y).toNat k)).1 - x)).length := by
        simpa using hk
      rw [List.getD_eq_getElem _ _ hk2]
      simp only [List.getElem_map, List.getElem_range, hlin]
    · have hk2 : k < (((List.range (image_cat_N blurdeg resolution x y).toNat).map
          fun k => (rotate_position x y (0.5 * blurdeg *
            linspace (-1) 1 (image_cat_N blurdeg resolution x y).toNat k)).2 - y)).length := by
        simpa using hk
      rw [List.getD_eq_getElem _ _ hk2]
      simp only [List.getElem_map, List.getElem_range, hlin]

/-- Witness for C4 at `blurdeg = 360 >= 0`, `resolution = 1 > 0`,
position `(1, 0)`. -/
theorem image_cat_blur_samples_witness :
    (0 : ℝ) ≤ 360 ∧ (0 : ℝ) < 1 ∧
      (Odd (image_cat_N 360 1 1 0) ∧ 1 ≤ image_cat_N 360 1 1 0) :=
  ⟨by norm_num, by norm_num,
    ⟨(image_cat_blur_samples 360 1 1 0 (by norm_num) (by norm_num)).1,
     (image_cat_blur_samples 360 1 1 0 (by norm_num) (by norm_num)).2.1⟩⟩

/-- Claim C1: in step 6 of `refine_bg_model`, a successfully fitted star's
flux scale is multiplied by `kernel_sum / (psf_norm * flux_scale)`, so it
afterwards equals `kernel_sum / psf_norm` independent of its prior (nonzero)
value, and the stored coefficients are the fitted kernel restricted to the
circular support `selk`, divided by the kernel's own total sum. -/
theorem refine_step_flux_coeff (ctx : RefCtx) (st : RefState) (k : ℕ)
    (r : FitResult) (hf : ctx.fit (refine_fit_args ctx st k) = some r)
    (hfs : st.cat.fscale k ≠ 0) :
    ∃ st2, refine_step ctx st k = .ok st2 ∧
      st2.cat.fscale k = kmat_sum ctx.krn_rad r.kmat / ctx.psf_norm ∧
      st2.cat.coeff k = some ((kern_sel_pairs ctx.krn_rad).map
        fun p => r.kmat p.1 p.2 / kmat_sum ctx.krn_rad r.kmat) := by
  simp only [refine_step]
  rw [hf]
  refine ⟨_, rfl, ?_, ?_⟩
  · simp only [Function.update_same]
    rcases eq_or_ne ctx.psf_norm 0 with hp | hp
    · simp [hp]
    · field_simp
      ring
  · simp only [Function.update_same]

/-- Witness for C1: in the always-successful context `ctxOkW` over `stW`
(star flux scale 1, which is nonzero), the refined star 0 ends with
flux scale `kmat_sum/psf_norm` and the normalized restricted kernel. -/
theorem refine_step_flux_coeff_witness :
    ctxOkW.fit (refine_fit_args ctxOkW stW 0) = some fitresW ∧
      stW.cat.fscale 0 ≠ 0 ∧
      ∃ st2, refine_step ctxOkW stW 0 = .ok st2 ∧
        st2.cat.fscale 0 = kmat_sum ctxOkW.krn_rad fitresW.kmat / ctxOkW.psf_norm ∧
        st2.cat.coeff 0 = some ((kern_sel_pairs ctxOkW.krn_rad).map
          fun p => fitresW.kmat p.1 p.2 / kmat_sum ctxOkW.krn_rad fitresW.kmat) :=
  ⟨rfl, by simp [stW, wcatW],
    refine_step_flux_coeff ctxOkW stW 0 fitresW rfl (by simp [stW, wcatW])⟩

/-- Sequencing lemma for the refinement loop: once a prefix of the star
list has refined successfully, the loop continues from the reached state. -/
theorem refine_bg_model_append (ctx : RefCtx) (l1 l2 : List ℕ)
    (st st1 : RefState) (h : refine_bg_model ctx l1 st = .ok st1) :
    refine_bg_model ctx (l1 ++ l2) st = refine_bg_model ctx l2 st1 := by
  induction l1 generalizing st with
  | nil =>
      simp only [refine_bg_model] at h
      injection h with h2
      rw [List.nil_append, h2]
  | cons a t ih =>
      simp only [refine_bg_model, List.cons_append] at h ⊢
      cases hs : refine_step ctx st a with
      | error m => rw [hs] at h; exact absurd h (by simp)
      | ok stm => rw [hs] at h; exact ih stm h

/-- Claim C2: if the external fit raises for star `k` after the stars of
`pre` refined successfully, `refine_bg_model` propagates the failure and
the shared model buffer holds exactly the state reached after refining
`pre`, minus `psf_norm` times star `k`'s rendered current contribution. -/
theorem refine_bg_model_fit_failure (ctx : RefCtx) (pre post : List ℕ)
    (k : ℕ) (st0 st1 : RefState)
    (h1 : refine_bg_model ctx pre st0 = .ok st1)
    (h2 : ctx.fit (refine_fit_args ctx st1 k) = none) :
    refine_bg_model ctx (pre ++ k :: post) st0 =
      .error (refine_sub_model ctx st1 k) := by
  rw [refine_bg_model_append ctx pre (k :: post) st0 st1 h1]
  simp only [refine_bg_model, refine_step]
  rw [h2]

/-- Witness for C2: with the always-raising fit of `ctxFailW`, the empty
prefix refines trivially and refining `[0]` from `stW` returns the
subtracted model as the propagated error state. -/
theorem refine_bg_model_fit_failure_witness :
    refine_bg_model ctxFailW [] stW = .ok stW ∧
      ctxFailW.fit (refine_fit_args ctxFailW stW 0) = none ∧
      refine_bg_model ctxFailW ([] ++ 0 :: []) stW =
        .error (refine_sub_model ctxFailW stW 0) :=
  ⟨rfl, rfl, refine_bg_model_fit_failure ctxFailW [] [] 0 stW stW rfl rfl⟩

/-- Claim C9: catalog ingestion fails with the fatal error and no partial
result when neither `MAG_CHEOPS` nor `MAG_GAIA` is present; when a
magnitude column is present, the relative flux scales are
`10^(-0.4*dmag)` against the first (target) row and exactly the entries
with flux scale above `fscalemin` survive the filter. -/
theorem read_starcat_magcolumn (pxl_scl : ℝ) (cat : StarcatData)
    (maxrad : Option ℝ) (fscalemin : ℝ) :
    ("MAG_CHEOPS" ∉ cat.colnames → "MAG_GAIA" ∉ cat.colnames →
      read_starcat pxl_scl cat maxrad fscalemin =
        .error "[read_starcat] Error: magnitude column not defined") ∧
    ("MAG_CHEOPS" ∈ cat.colnames →
      read_starcat pxl_scl cat maxrad fscalemin =
        .ok (((List.range (starcat_N cat maxrad)).filter fun i =>
              decide ((10 : ℝ) ^ (-(0.4) * (cat.mag_cheops i - cat.mag_cheops 0))
                > fscalemin)).map
                (fun i => (cat.ra 0 - cat.ra i) * Real.cos (deg2rad (cat.dec 0))
                  * 3600.0 / pxl_scl),
             ((List.range (starcat_N cat maxrad)).filter fun i =>
              decide ((10 : ℝ) ^ (-(0.4) * (cat.mag_cheops i - cat.mag_cheops 0))
                > fscalemin)).map
                (fun i => (cat.dec i - cat.dec 0) * 3600.0 / pxl_scl),
             ((List.range (starcat_N cat maxrad)).filter fun i =>
              decide ((10 : ℝ) ^ (-(0.4) * (cat.mag_cheops i - cat.mag_cheops 0))
                > fscalemin)).map
                (fun i => (10 : ℝ) ^ (-(0.4) * (cat.mag_cheops i - cat.mag_cheops 0))),
             ((List.range (starcat_N cat maxrad)).filter fun i =>
              decide ((10 : ℝ) ^ (-(0.4) * (cat.mag_cheops i - cat.mag_cheops 0))
                > fscalemin)).map cat.teff,
             ((List.range (starcat_N cat maxrad)).filter fun i =>
              decide ((10 : ℝ) ^ (-(0.4) * (cat.mag_cheops i - cat.mag_cheops 0))
                > fscalemin)).map cat.gid) ∧
      ∀ v ∈ ((List.range (starcat_N cat maxrad)).filter fun i =>
              decide ((10 : ℝ) ^ (-(0.4) * (cat.mag_cheops i - cat.mag_cheops 0))
                > fscalemin)).map
                (fun i => (10 : ℝ) ^ (-(0.4) * (cat.mag_cheops i - cat.mag_cheops 0))),
        fscalemin < v) ∧
    ("MAG_CHEOPS" ∉ cat.colnames → "MAG_GAIA" ∈ cat.colnames →
      read_starcat pxl_scl cat maxrad fscalemin =
        .ok (((List.range (starcat_N cat maxrad)).filter fun i =>
              decide ((10 : ℝ) ^ (-(0.4) * (cat.mag_gaia i - cat.mag_gaia 0))
                > fscalemin)).map
                (fun i => (cat.ra 0 - cat.ra i) * Real.cos (deg2rad (cat.dec 0))
                  * 3600.0 / pxl_scl),
             ((List.range (starcat_N cat maxrad)).filter fun i =>
              decide ((10 : ℝ) ^ (-(0.4) * (cat.mag_gaia i - cat.mag_gaia 0))
                > fscalemin)).map
                (fun i => (cat.dec i - cat.dec 0) * 3600.0 / pxl_scl),
             ((List.range (starcat_N cat maxrad)).filter fun i =>
              decide ((10 : ℝ) ^ (-(0.4) * (cat.mag_gaia i - cat.mag_gaia 0))
                > fscalemin)).map
                (fun i => (10 : ℝ) ^ (-(0.4) * (cat.mag_gaia i - cat.mag_gaia 0))),
             ((List.range (starcat_N cat maxrad)).filter fun i =>
              decide ((10 : ℝ) ^ (-(0.4) * (cat.mag_gaia i - cat.mag_gaia 0))
                > fscalemin)).map cat.teff,
             ((List.range (starcat_N cat maxrad)).filter fun i =>
              decide ((10 : ℝ) ^ (-(0.4) * (cat.mag_gaia i - cat.mag_gaia 0))
                > fscalemin)).map cat.gid)) := by
  refine ⟨?_, ?_, ?_⟩
  · intro hc hg
    unfold read_starcat
    rw [if_neg hc, if_neg hg]
  · intro hc
    unfold read_starcat
    rw [if_pos hc]
    refine ⟨rfl, ?_⟩
    intro v hv
    rw [List.mem_map] at hv
    obtain ⟨i, hi, hiv⟩ := hv
    rw [List.mem_filter] at hi
    have := of_decide_eq_true hi.2
    rw [← hiv]
    exact this
  · intro hc hg
    unfold read_starcat
    rw [if_neg hc, if_pos hg]

/-- Witness for C9: the magnitude-less table errors out; the
`MAG_CHEOPS` table with one row of magnitude 5 yields the single surviving
entry with relative flux scale `10^0 = 1`. -/
theorem read_starcat_magcolumn_witness :
    ("MAG_CHEOPS" ∉ tblNoMagW.colnames ∧ "MAG_GAIA" ∉ tblNoMagW.colnames ∧
      read_starcat 1 tblNoMagW none 0 =
        .error "[read_starcat] Error: magnitude column not defined") ∧
    ("MAG_CHEOPS" ∈ tblCheopsW.colnames ∧
      read_starcat 1 tblCheopsW none 0 = .ok ([0], [0], [1], [0], [0])) := by
  constructor
  · refine ⟨by simp [tblNoMagW], by simp [tblNoMagW], ?_⟩
    exact (read_starcat_magcolumn 1 tblNoMagW none 0).1
      (by simp [tblNoMagW]) (by simp [tblNoMagW])
  · refine ⟨by simp [tblCheopsW], ?_⟩
    have h := ((read_starcat_magcolumn 1 tblCheopsW none 0).2.1
      (by simp [tblCheopsW])).1
    rw [h]
    have hone : ∀ i : ℕ, (10 : ℝ) ^ (-(0.4) * (tblCheopsW.mag_cheops i - tblCheopsW.mag_cheops 0)) = 1 := by
      intro i
      show (10 : ℝ) ^ (-(0.4) * ((5 : ℝ) - 5)) = 1
      norm_num
    simp [starcat_N, tblCheopsW, List.range_succ, List.filter_cons, hone]

/-- Conditional accumulation over an index range is the filtered sum. -/
theorem pipe_foldl_cond_sum (g : ℕ → Frame) (p : ℕ → Prop) [DecidablePred p]
    (m : ℕ) (b : Frame) (j i : ℕ) :
    ((List.range m).foldl (fun acc n => if p n then acc + g n else acc) b) j i =
      b j i + ∑ n in (Finset.range m).filter p, g n j i := by
  induction m with
  | zero => simp
  | succ k ih =>
      rw [List.range_succ, List.foldl_append, List.foldl_cons, List.foldl_nil,
        Finset.range_succ, Finset.filter_insert]
      by_cases hp : p k
      · rw [if_pos hp, if_pos hp,
          Finset.sum_insert (by simp [Finset.mem_filter])]
        simp only [Pi.add_apply, ih]
        ring
      · rw [if_neg hp, if_neg hp]
        exact ih

/-- Claim C8: `star_bg.image` adds exactly the windowed contributions of
the stars that are neither in the skip list nor below the flux floor; in
particular for the 3-star catalog with flux scales `[1.0, 0.05, 1e-6]`,
empty skip list and floor `1e-5`, exactly the stars at indices 0 and 1
contribute. -/
theorem star_bg_image_selects (sb : StarBg) (x0 y0 rolldeg : ℝ)
    (shape : ℕ × ℕ) (skip : List ℕ) (limflux : ℝ) (xpos ypos : ℕ → ℝ)
    (psf_ids : ℕ → ℕ) (psfs : ℕ → ℝ → ℝ → ℝ) :
    star_bg_image sb x0 y0 rolldeg shape skip limflux none =
      (fun j i => ∑ n in (Finset.range sb.catsize).filter
          (fun n => n ∉ skip ∧ ¬ sb.fscale n < limflux),
        star_contrib sb x0 y0 rolldeg shape n j i) ∧
    star_bg_image (StarBg.mk 3 xpos ypos fscale3W psf_ids psfs) x0 y0 rolldeg
        shape [] (1e-5) none =
      (fun j i =>
        star_contrib (StarBg.mk 3 xpos ypos fscale3W psf_ids psfs)
            x0 y0 rolldeg shape 0 j i +
          star_contrib (StarBg.mk 3 xpos ypos fscale3W psf_ids psfs)
            x0 y0 rolldeg shape 1 j i) := by
  have hfold : ∀ (sb2 : StarBg) (sk : List ℕ) (lf : ℝ) (j i : ℕ),
      star_bg_image sb2 x0 y0 rolldeg shape sk lf none j i =
        ∑ n in (Finset.range sb2.catsize).filter
          (fun n => n ∉ sk ∧ ¬ sb2.fscale n < lf),
          star_contrib sb2 x0 y0 rolldeg shape n j i := by
    intro sb2 sk lf j i
    have hcong : (fun (acc : Frame) n => if n ∈ sk then acc
        else if sb2.fscale n < lf then acc
        else acc + star_contrib sb2 x0 y0 rolldeg shape n) =
        (fun acc n => if (n ∉ sk ∧ ¬ sb2.fscale n < lf)
          then acc + star_contrib sb2 x0 y0 rolldeg shape n else acc) := by
      funext acc n
      by_cases h1 : n ∈ sk
      · simp [h1]
      · by_cases h2 : sb2.fscale n < lf <;> simp [h1, h2]
    show ((List.range sb2.catsize).foldl
      (fun acc n => if n ∈ sk then acc
        else if sb2.fscale n < lf then acc
        else acc + star_contrib sb2 x0 y0 rolldeg shape n) (fun _ _ => 0)) j i = _
    rw [hcong, pipe_foldl_cond_sum]
    exact zero_add _
  constructor
  · funext j i
    exact hfold sb skip limflux j i
  · funext j i
    rw [hfold]
    have h0 : ¬ fscale3W 0 < (1e-5 : ℝ) := by norm_num [fscale3W]
    have h1 : ¬ fscale3W 1 < (1e-5 : ℝ) := by norm_num [fscale3W]
    have h2 : fscale3W 2 < (1e-5 : ℝ) := by norm_num [fscale3W]
    rw [show (3 : ℕ) = 2 + 1 from rfl, Finset.range_succ, Finset.filter_insert,
      if_neg (by simp [h2]), Finset.range_succ, Finset.filter_insert,
      if_pos (by simp [h1]), Finset.range_succ, Finset.filter_insert,
      if_pos (by simp [h0]), Finset.range_zero, Finset.filter_empty,
      Finset.sum_insert (by simp), Finset.sum_insert (by simp),
      Finset.sum_empty]
    ring

/-- Claim C10: both background-star masks have clean-is-True polarity:
`make_bg_circ_mask` holds exactly at pixels covered by no non-skipped
star's `add_circle` disc, and `make_bg_psf_mask` holds exactly at pixels
where no non-skipped star's windowed footprint exceeds `level` times that
footprint's own peak. -/
theorem bg_masks_clean_polarity (shape : ℕ × ℕ) (cat : WorkCat)
    (skip : List ℕ) (radius level : ℝ) (psf_ids : ℕ → ℕ) (psfs : ℕ → PsfFun)
    (kxo kyo : Option (List ℝ)) (j i : ℕ) :
    (make_bg_circ_mask shape cat skip radius j i ↔
      ∀ n < cat.catsize, n ∉ skip →
        ¬ circle_covers shape (cat.x n) (cat.y n) radius j i) ∧
    (make_bg_psf_mask shape cat psf_ids psfs skip kxo kyo radius level j i ↔
      ∀ n < cat.catsize, n ∉ skip →
        ¬ psf_covers shape (cat.x n) (cat.y n) (cat.dxs n) (cat.dys n)
          (psfs (psf_ids n)) (select_kmat kxo kyo (cat.coeff n))
          radius level j i) := by
  constructor
  · unfold make_bg_circ_mask bg_circ_frame
    have hstep : (fun (acc : Frame) n => if n ∈ skip then acc
        else add_circle shape acc (cat.x n) (cat.y n) radius) =
        (fun acc n => if n ∉ skip then acc +
          (fun j2 i2 => if circle_covers shape (cat.x n) (cat.y n) radius j2 i2
            then (1 : ℝ) else 0) else acc) := by
      funext acc n
      by_cases h1 : n ∈ skip
      · rw [if_pos h1, if_neg (by simp [h1])]
      · rw [if_neg h1, if_pos h1]
        funext j2 i2
        simp [add_circle, Pi.add_apply]
    rw [hstep, pipe_foldl_cond_sum]
    rw [show (fun (_ _ : ℕ) => (0 : ℝ)) j i + ∑ n in
        (Finset.range cat.catsize).filter (fun n => n ∉ skip),
        (fun j2 i2 => if circle_covers shape (cat.x n) (cat.y n) radius j2 i2
          then (1 : ℝ) else 0) j i =
        ∑ n in (Finset.range cat.catsize).filter (fun n => n ∉ skip),
        (if circle_covers shape (cat.x n) (cat.y n) radius j i
          then (1 : ℝ) else 0) from by simp]
    rw [Finset.sum_eq_zero_iff_of_nonneg
      (by intro n _; split <;> norm_num)]
    constructor
    · intro h n hn hsk hcov
      have h2 := h n (by simp [Finset.mem_filter, Finset.mem_range, hn, hsk])
      rw [if_pos hcov] at h2
      norm_num at h2
    · intro h n hn
      rw [Finset.mem_filter, Finset.mem_range] at hn
      rw [if_neg (h n hn.1 hn.2)]
  · unfold make_bg_psf_mask bg_psf_frame
    have hstep : (fun (acc : Frame) n => if n ∈ skip then acc
        else add_psf_mask shape acc (cat.x n) (cat.y n) (cat.dxs n) (cat.dys n)
          (psfs (psf_ids n)) (select_kmat kxo kyo (cat.coeff n)) radius level) =
        (fun acc n => if n ∉ skip then acc +
          (fun j2 i2 => if psf_covers shape (cat.x n) (cat.y n) (cat.dxs n)
              (cat.dys n) (psfs (psf_ids n)) (select_kmat kxo kyo (cat.coeff n))
              radius level j2 i2
            then (1 : ℝ) else 0) else acc) := by
      funext acc n
      by_cases h1 : n ∈ skip
      · rw [if_pos h1, if_neg (by simp [h1])]
      · rw [if_neg h1, if_pos h1]
        funext j2 i2
        simp [add_psf_mask, Pi.add_apply]
    rw [hstep, pipe_foldl_cond_sum]
    rw [show (fun (_ _ : ℕ) => (0 : ℝ)) j i + ∑ n in
        (Finset.range cat.catsize).filter (fun n => n ∉ skip),
        (fun j2 i2 => if psf_covers shape (cat.x n) (cat.y n) (cat.dxs n)
            (cat.dys n) (psfs (psf_ids n)) (select_kmat kxo kyo (cat.coeff n))
            radius level j2 i2
          then (1 : ℝ) else 0) j i =
        ∑ n in (Finset.range cat.catsize).filter (fun n => n ∉ skip),
        (if psf_covers shape (cat.x n) (cat.y n) (cat.dxs n) (cat.dys n)
            (psfs (psf_ids n)) (select_kmat kxo kyo (cat.coeff n))
            radius level j i
          then (1 : ℝ) else 0) from by simp]
    rw [Finset.sum_eq_zero_iff_of_nonneg
      (by intro n _; split <;> norm_num)]
    constructor
    · intro h n hn hsk hcov
      have h2 := h n (by simp [Finset.mem_filter, Finset.mem_range, hn, hsk])
      rw [if_pos hcov] at h2
      norm_num at h2
    · intro h n hn
      rw [Finset.mem_filter, Finset.mem_range] at hn
      rw [if_neg (h n hn.1 hn.2)]
